import Mathlib

set_option maxRecDepth 8192

namespace SoCBot

/-! Shallow embedding of the SoC bot automation engine.

The Python sources embedded here are:
  src/src/tutorial/tutorial_engine.py  (TutorialEngine, TutorialStep)
  src/src/core/parallel_executor.py    (ParallelEmulatorExecutor)
  src/src/core/image_processor.py      (ImageProcessor)
  src/src/core/adb_controller.py       (ADBController)

Side effects (device commands, sleeps, callback invocations) are recorded as
events in a trace; the wall clock and the results of external primitives
(subprocess calls, cv2 template matching, screen capture) are supplied as
explicit parameters or oracles. -/

/-- Outcome of one invocation of the action callable of a step: the Python
callable either returns a value, of which only the truthiness could matter,
or raises an exception. -/
inductive ActionResult where
  | ret (value : Bool)
  | raise
deriving DecidableEq

/-- Embeds the dataclass TutorialStep of tutorial_engine.py. The action
callable is modelled by the outcome it produces on each attempt number
(0-based, counted per step within one run). -/
structure TutorialStep where
  id : String
  description : String := ""
  action : Nat → ActionResult
  timeout : Rat := 10
  retry_count : Nat := 3

/-- Embeds one value of the checkpoints dict of TutorialEngine: step id,
timestamp and the server range active at save time. -/
structure Checkpoint where
  step_id : String
  timestamp : Nat
  server_range : Int × Int
deriving DecidableEq

/-- Python dict assignment d[k] = v on an association list with unique
keys: overwrite the entry with the given key in place, or append a new
entry when the key is absent. -/
def setKeyG {α : Type} (m : List (String × α)) (k : String) (v : α) :
    List (String × α) :=
  match m with
  | [] => [(k, v)]
  | p :: rest => if p.1 == k then (k, v) :: rest else p :: setKeyG rest k v

/-- Python dict lookup d.get(k) on an association list. -/
def getKeyG {α : Type} (m : List (String × α)) (k : String) : Option α :=
  (m.find? (fun p => p.1 == k)).map Prod.snd

/-- Embeds the mutable state of a TutorialEngine instance. The field
checkpoint_step_index models the optional attribute of the same name, which
exists exactly when a checkpoint has been restored and not yet consumed. -/
structure TutorialEngine where
  steps : List TutorialStep
  server_range : Int × Int := (1, 600)
  checkpoints : List (String × Checkpoint) := []
  last_checkpoint_id : Option String := none
  current_step : Option TutorialStep := none
  checkpoint_step_index : Option Nat := none

/-- Embeds TutorialEngine.save_checkpoint. The wall clock value used for the
timestamp and the generated id is passed in as now. Returns the id of the
saved checkpoint (none when no step is current) and the updated engine. -/
def save_checkpoint (e : TutorialEngine) (now : Nat)
    (checkpoint_id : Option String) : Option String × TutorialEngine :=
  match e.current_step with
  | none => (none, e)
  | some cs =>
      let cid := checkpoint_id.getD ("checkpoint_" ++ cs.id ++ "_" ++ toString now)
      let cp : Checkpoint := ⟨cs.id, now, e.server_range⟩
      (some cid,
        { e with checkpoints := setKeyG e.checkpoints cid cp,
                 last_checkpoint_id := some cid })

/-- Embeds the index scan inside restore_checkpoint: the enumerate loop
that finds the first step whose id equals the recorded id, none standing for
the Python sentinel -1. -/
def findStepIndex (step_id : String) : List TutorialStep → Option Nat
  | [] => none
  | s :: rest =>
      if s.id == step_id then some 0
      else (findStepIndex step_id rest).map (fun i => i + 1)

/-- Embeds TutorialEngine.restore_checkpoint: defaults to the most recently
saved checkpoint, fails when the id is unknown or the recorded step id no
longer occurs in the step list, otherwise restores the server range and
records the step index at which the next run will start. -/
def restore_checkpoint (e : TutorialEngine) (checkpoint_id : Option String) :
    Bool × TutorialEngine :=
  let cid? := match checkpoint_id with
    | some c => some c
    | none => e.last_checkpoint_id
  match cid? with
  | none => (false, e)
  | some cid =>
      match getKeyG e.checkpoints cid with
      | none => (false, e)
      | some cp =>
          match findStepIndex cp.step_id e.steps with
          | none => (false, e)
          | some i =>
              (true, { e with server_range := cp.server_range,
                              checkpoint_step_index := some i })

/-- Observable events of one tutorial run: queries of the stop flag, action
executions (step index and attempt number), the one second inter-attempt
sleep, checkpoint saves, and the two callback invocations. -/
inductive Event where
  | checked (b : Bool)
  | act (stepIdx attempt : Nat)
  | sleepSec
  | savedCheckpoint (cid : String)
  | stepComplete (id : String) (ok : Bool)
  | tutorialComplete (ok : Bool)
deriving DecidableEq

/-- Embeds the retry loop of TutorialEngine, the for attempt in
range(step.retry_count) loop inside run_tutorial. The oracle sigma gives the
value of stop_event.is_set() at the n-th query of the flag, counted over the
whole run; checks is the number of queries made so far. The returned Bool is
step_success. Note that a normal return of the action sets step_success
regardless of the returned value: the value is bound to an unused local. -/
def attemptLoop (σ : Nat → Bool) (now : Nat) (step : TutorialStep) (i : Nat)
    (e : TutorialEngine) (remaining attempt checks : Nat) :
    TutorialEngine × Nat × List Event × Bool :=
  match remaining with
  | 0 => (e, checks, [], false)
  | r + 1 =>
      if σ checks then (e, checks + 1, [Event.checked true], false)
      else
        match step.action attempt with
        | ActionResult.ret _ =>
            if i % 5 == 0 then
              match save_checkpoint e now none with
              | (cid?, e2) =>
                  (e2, checks + 1,
                    [Event.checked false, Event.act i attempt] ++
                      (match cid? with
                       | some cid => [Event.savedCheckpoint cid]
                       | none => []),
                    true)
            else (e, checks + 1, [Event.checked false, Event.act i attempt], true)
        | ActionResult.raise =>
            let sleeps := if attempt < step.retry_count - 1 then [Event.sleepSec] else []
            match attemptLoop σ now step i e r (attempt + 1) (checks + 1) with
            | (e2, checks2, evs, ok) =>
                (e2, checks2,
                  Event.checked false :: Event.act i attempt :: (sleeps ++ evs), ok)

/-- Embeds the outer for i in range(start_index, len(steps)) loop of
run_tutorial. rest is the remaining suffix of the step list, i the absolute
index of its head. -/
def stepLoop (σ : Nat → Bool) (now : Nat) (e : TutorialEngine)
    (rest : List TutorialStep) (i checks : Nat) :
    TutorialEngine × Nat × List Event :=
  match rest with
  | [] => (e, checks, [])
  | step :: rest2 =>
      if σ checks then (e, checks + 1, [Event.checked true])
      else
        let e1 := { e with current_step := some step }
        match attemptLoop σ now step i e1 step.retry_count 0 (checks + 1) with
        | (e2, checks2, evs, ok) =>
            let evs2 := (Event.checked false :: evs) ++ [Event.stepComplete step.id ok]
            if ok then
              match stepLoop σ now e2 rest2 (i + 1) checks2 with
              | (e3, checks3, evs3) => (e3, checks3, evs2 ++ evs3)
            else (e2, checks2, evs2)

/-- The index at which run_tutorial starts executing: the restored
checkpoint index when one is pending, otherwise 0. -/
def startIndex (e : TutorialEngine) : Nat :=
  e.checkpoint_step_index.getD 0

/-- Embeds TutorialEngine. run_tutorial, the thread body. Returns the final
engine state, the event trace, and the success flag that is passed to the
completion callback. The branch for a pending start index beyond the step
list models the IndexError raised by the resume log line, which the outer
handler converts into a failed outcome. The success flag mirrors the source:
it is the conjunction of the stop flag being clear with the id of the last
visited step equalling the id of the last step of the script; when the step
list is empty or no step was visited, the attribute access raises and the
handler leaves success false. -/
def run_tutorial (σ : Nat → Bool) (now : Nat) (e : TutorialEngine) :
    TutorialEngine × List Event × Bool :=
  let start := startIndex e
  if 0 < start ∧ e.steps.length ≤ start then
    ({ e with current_step := none, checkpoint_step_index := none },
      [Event.tutorialComplete false], false)
  else
    match stepLoop σ now e (e.steps.drop start) start 0 with
    | (e1, checks1, evs) =>
        let b := σ checks1
        let success :=
          if b then false
          else
            match e1.current_step, e1.steps.getLast? with
            | some cs, some last => cs.id == last.id
            | _, _ => false
        ({ e1 with current_step := none, checkpoint_step_index := none },
          evs ++ [Event.checked b, Event.tutorialComplete success], success)

/-- True for the events that record an execution of the action of a step. -/
def isAct : Event → Bool
  | Event.act _ _ => true
  | _ => false

/-- True for the events that record a completion callback invocation. -/
def isComplete : Event → Bool
  | Event.tutorialComplete _ => true
  | _ => false

/-- Events that are allowed after the stop flag has been observed set: no
action execution and no step reported successful may follow. -/
def cleanEv : Event → Bool
  | Event.act _ _ => false
  | Event.stepComplete _ ok => !ok
  | _ => true

/-! Embedding of ADBController (src/src/core/adb_controller.py). -/

/-- Result of a Python call that yields a string: either the string, or a
raised exception. -/
inductive PyResult where
  | ok (s : List Char)
  | exn
deriving DecidableEq

/-- Whether the second list is an initial segment of the first. -/
def leadsWith : List Char → List Char → Bool
  | _, [] => true
  | [], _ :: _ => false
  | a :: hay, b :: nd => a == b && leadsWith hay nd

/-- Python substring membership test, needle in hay. -/
def containsSub (needle : List Char) : List Char → Bool
  | [] => leadsWith [] needle
  | a :: rest => leadsWith (a :: rest) needle || containsSub needle rest

/-- Embeds ADBController.tap: the result string of execute_command is
scanned for error markers; a raised exception also yields False. The actual
shell round trip is abstracted into the cmdResult parameter. -/
def tap (cmdResult : PyResult) : Bool :=
  match cmdResult with
  | PyResult.exn => false
  | PyResult.ok r =>
      if containsSub ("ERROR".toList) r ||
          containsSub ("error".toList) (r.map Char.toLower) then false
      else true

/-- Device level events produced by the coordinate and timing based step
helpers of TutorialEngine. -/
inductive DevEvent where
  | slept (seconds : Rat)
  | tapped (x y : Int) (ok : Bool)
  | swiped (x1 y1 x2 y2 : Int) (durationMs : Nat)
deriving DecidableEq

/-- Embeds ADBController.complex_swipe: fewer than two points is a no-op,
otherwise the total duration is divided evenly over the segments and one
swipe is issued per consecutive pair of points. -/
def complex_swipe (coordinates : List (Int × Int)) (duration_ms : Nat) :
    List DevEvent :=
  if coordinates.length < 2 then []
  else
    let segment := duration_ms / (coordinates.length - 1)
    (coordinates.zip coordinates.tail).map
      (fun p => DevEvent.swiped p.1.1 p.1.2 p.2.1 p.2.2 segment)

/-- Embeds TutorialEngine.click_on_coordinates: optional sleep, one tap whose
result is discarded, and an unconditional True return. -/
def click_on_coordinates (x y : Int) (wait_time : Rat) (tapCmd : PyResult) :
    List DevEvent × Bool :=
  let waitEvs := if 0 < wait_time then [DevEvent.slept wait_time] else []
  (waitEvs ++ [DevEvent.tapped x y (tap tapCmd)], true)

/-- Embeds TutorialEngine.perform_swipe: one swipe command, then True. -/
def perform_swipe (start_x start_y end_x end_y : Int) (duration_ms : Nat) :
    List DevEvent × Bool :=
  ([DevEvent.swiped start_x start_y end_x end_y duration_ms], true)

/-- Embeds TutorialEngine.perform_complex_swipe: delegates to
ADBController.complex_swipe, then True. -/
def perform_complex_swipe (points : List (Int × Int)) (duration_ms : Nat) :
    List DevEvent × Bool :=
  (complex_swipe points duration_ms, true)

/-- Embeds TutorialEngine.wait_fixed_time: one sleep, then True. -/
def wait_fixed_time (seconds : Rat) : List DevEvent × Bool :=
  ([DevEvent.slept seconds], true)

/-! Embedding of the screen capture path of ADBController. -/

/-- Image: height, width and a pixel function (row, column, channel). The
byte content of decoded screenshots is abstract except for the constant
zero image used on capture failures. -/
structure Img where
  h : Nat
  w : Nat
  pix : Nat → Nat → Nat → Nat

/-- Size of the underlying numpy array of a three channel image. -/
def Img.size (i : Img) : Nat := i.h * i.w * 3

/-- The all-zero 1920x1080 BGR image np.zeros((1080, 1920, 3)) returned by
the capture path on failure. -/
def blackImg : Img := { h := 1080, w := 1920, pix := fun _ _ _ => 0 }

/-- Outcome of the one capture round trip inside get_screenshot_direct: the
communicate call timed out, the command returned nonzero, the bytes were
received and cv2.imdecode produced the given result (none when the bytes do
not decode), or an unexpected exception was raised. -/
inductive CaptureOutcome where
  | timedOut
  | cmdFailed
  | decoded (img : Option Img)
  | raised

/-- Embeds ADBController.get_screenshot_direct: every failure path returns
the black 1920x1080 zero image instead of raising. -/
def get_screenshot_direct (outcome : CaptureOutcome) : Img :=
  match outcome with
  | CaptureOutcome.timedOut => blackImg
  | CaptureOutcome.cmdFailed => blackImg
  | CaptureOutcome.decoded none => blackImg
  | CaptureOutcome.decoded (some img) => img
  | CaptureOutcome.raised => blackImg

/-- Outcomes that the source treats as a capture, decode or timeout failure:
everything except a successful decode of a non-empty image. -/
def isCaptureFailure : CaptureOutcome → Bool
  | CaptureOutcome.timedOut => true
  | CaptureOutcome.cmdFailed => true
  | CaptureOutcome.decoded none => true
  | CaptureOutcome.decoded (some img) => img.size == 0
  | CaptureOutcome.raised => true

/-- Embeds the screenshot buffer attributes of an ADBController instance. -/
structure ADBState where
  last_screenshot : Option Img := none
  last_screenshot_time : Rat := 0

/-- Embeds ADBController.get_screenshot: a buffered screenshot younger than
0.1 seconds is reused; otherwise the direct capture runs, and an empty result
falls back to a copy of the last screenshot or the black image. A freshly
captured non-empty image (including the black image produced by a failed
direct capture) is stored as the new buffer. -/
def get_screenshot (st : ADBState) (current_time : Rat) (use_buffer : Bool)
    (outcome : CaptureOutcome) : Img × ADBState :=
  let buffered :=
    match st.last_screenshot with
    | some _ => use_buffer && decide (current_time - st.last_screenshot_time < 1 / 10)
    | none => false
  if buffered then
    match st.last_screenshot with
    | some last => (last, st)
    | none => (blackImg, st)
  else
    let img := get_screenshot_direct outcome
    if img.size == 0 then
      match st.last_screenshot with
      | some last => (last, st)
      | none => (blackImg, st)
    else
      (img, { last_screenshot := some img, last_screenshot_time := current_time })

/-! Embedding of ParallelEmulatorExecutor (src/src/core/parallel_executor.py). -/

/-- Embeds the identity of an EmulatorTask as created by start_tutorial. -/
structure EmulatorTask where
  emulator_id : String
  task_id : String
deriving DecidableEq

/-- Embeds the bookkeeping maps of a ParallelEmulatorExecutor instance.
Tutorial engines are identified by a creation counter; futures lists the
tasks that the queue worker has already submitted to the thread pool. -/
structure ExecutorState where
  adb_controllers : List String := []
  tutorial_engines : List (String × Nat) := []
  current_tasks : List (String × EmulatorTask) := []
  task_queue : List EmulatorTask := []
  futures : List EmulatorTask := []
  engine_counter : Nat := 0
deriving DecidableEq

/-- Embeds ParallelEmulatorExecutor.initialize_emulator with
check_device=False, the path taken by start_tutorial: idempotent creation of
the per-device ADB controller. -/
def initialize_emulator (s : ExecutorState) (emulator_id : String) :
    Bool × ExecutorState :=
  if s.adb_controllers.any (fun c => c == emulator_id) then (true, s)
  else (true, { s with adb_controllers := s.adb_controllers ++ [emulator_id] })

/-- Embeds ParallelEmulatorExecutor.initialize_tutorial_engine: fails when
the emulator has no controller, otherwise creates a fresh TutorialEngine and
stores it under the emulator id, replacing any existing engine. -/
def initialize_tutorial_engine (s : ExecutorState) (emulator_id : String) :
    Bool × ExecutorState :=
  if s.adb_controllers.any (fun c => c == emulator_id) then
    (true, { s with
      tutorial_engines := setKeyG s.tutorial_engines emulator_id s.engine_counter,
      engine_counter := s.engine_counter + 1 })
  else (false, s)

/-- The task id string built by start_tutorial from the emulator id and the
current wall clock. -/
def mkTaskId (emulator_id : String) (now : Nat) : String :=
  "tutorial_" ++ emulator_id ++ "_" ++ toString now

/-- Embeds ParallelEmulatorExecutor.start_tutorial: initializes the emulator
and a fresh engine, then unconditionally records the new task under the
emulator id and appends it to the task queue. No check of an already active
task for the same emulator is performed anywhere on this path. -/
def start_tutorial (s : ExecutorState) (emulator_id : String) (now : Nat) :
    Option String × ExecutorState :=
  match initialize_emulator s emulator_id with
  | (false, s1) => (none, s1)
  | (true, s1) =>
      match initialize_tutorial_engine s1 emulator_id with
      | (false, s2) => (none, s2)
      | (true, s2) =>
          let task : EmulatorTask := ⟨emulator_id, mkTaskId emulator_id now⟩
          (some (mkTaskId emulator_id now),
            { s2 with
              current_tasks := setKeyG s2.current_tasks emulator_id task,
              task_queue := s2.task_queue ++ [task] })

/-- Embeds one iteration of ParallelEmulatorExecutor. task_queue_worker: the
task at the head of the queue is submitted to the thread pool (recorded in
futures) without any check of other tasks active on the same emulator. -/
def task_queue_worker_step (s : ExecutorState) : ExecutorState :=
  match s.task_queue with
  | [] => s
  | task :: rest => { s with task_queue := rest, futures := s.futures ++ [task] }

/-! Embedding of ImageProcessor (src/src/core/image_processor.py). -/

/-- Embeds the mutable state of an ImageProcessor instance that
find_template reads and writes. -/
structure ImageProcessor where
  templates : List (String × Img)
  template_thresholds : List (String × Rat)
  resolution_map : List ((Nat × Nat) × Rat)
  current_resolution : Option (Nat × Nat) := none
  scale_factor : Rat := 1

/-- The per-template similarity thresholds installed by the ImageProcessor
initializer. -/
def defaultThresholds : List (String × Rat) :=
  [("default", 4/5), ("skip", 3/4), ("confirm_new_acc", 17/20),
   ("start_battle", 41/50), ("open_profile", 7/10), ("navigator", 17/20),
   ("lite_apks", 41/50), ("hero_face", 4/5), ("upgrade_ship", 17/20),
   ("ship", 39/50), ("Hell_Genry", 3/4), ("shoot", 39/50),
   ("close_menu", 4/5), ("open_new_local_building", 41/50)]

/-- The resolution to scale factor table installed by the ImageProcessor
initializer. -/
def defaultResolutionMap : List ((Nat × Nat) × Rat) :=
  [((1920, 1080), 1), ((2400, 1080), 5/4), ((1280, 720), 667/1000),
   ((2560, 1440), 1333/1000), ((3840, 2160), 2)]

/-- Embeds ImageProcessor.get_optimal_threshold: the per-template threshold
when configured, otherwise the default entry. The final fallback value is
unreachable for processors built with the initializer table, which always
contains the default key. -/
def get_optimal_threshold (p : ImageProcessor) (template_name : String) : Rat :=
  match getKeyG p.template_thresholds template_name with
  | some t => t
  | none =>
      match getKeyG p.template_thresholds "default" with
      | some d => d
      | none => 4/5

/-- The nearest known resolution: Python min over the resolution map keys by
taxicab distance, keeping the first key that attains the minimum. -/
def nearestResolution (rmap : List ((Nat × Nat) × Rat)) (w hgt : Nat) :
    Option ((Nat × Nat) × Rat) :=
  rmap.foldl (fun best entry =>
    match best with
    | none => some entry
    | some b =>
        let dist := fun (r : (Nat × Nat) × Rat) =>
          ((r.1.1 : Int) - w).natAbs + ((r.1.2 : Int) - hgt).natAbs
        if dist entry < dist b then some entry else some b) none

/-- Embeds ImageProcessor.detect_resolution: an empty screenshot reports
(0, 0); a changed resolution updates the cached resolution and looks up the
scale factor of the nearest known resolution. -/
def detect_resolution (p : ImageProcessor) (screenshot : Img) :
    (Nat × Nat) × ImageProcessor :=
  if screenshot.size == 0 then ((0, 0), p)
  else
    let resolution := (screenshot.w, screenshot.h)
    if p.current_resolution = some resolution then (resolution, p)
    else
      match nearestResolution p.resolution_map screenshot.w screenshot.h with
      | some entry =>
          (resolution, { p with current_resolution := some resolution,
                                scale_factor := entry.2 })
      | none => (resolution, { p with current_resolution := some resolution })

/-- Python int() applied to a non-negative float: truncation, here the floor
of a rational. -/
def pyInt (q : Rat) : Nat := q.floor.toNat

/-- Embeds ImageProcessor.scale_image with an explicit scale factor: a unit
factor returns the image unchanged, otherwise both dimensions are scaled and
truncated; cv2.resize keeps the pixel content abstract here. -/
def scale_image (image : Img) (scale_factor : Rat) : Img :=
  if scale_factor = 1 then image
  else { h := pyInt ((image.h : Rat) * scale_factor),
         w := pyInt ((image.w : Rat) * scale_factor),
         pix := image.pix }

/-- Embeds ImageProcessor.preprocess_image: the default type is the
identity; the enhance, edges and hsv types transform only the pixel content
(supplied as the oracle tf) and keep the dimensions; an unknown type falls
back to the original image. -/
def preprocess_image (tf : String → (Nat → Nat → Nat → Nat) → Nat → Nat → Nat → Nat)
    (image : Img) (preprocess_type : String) : Img :=
  if preprocess_type = "default" then image
  else if preprocess_type = "enhance" ∨ preprocess_type = "edges" ∨
      preprocess_type = "hsv" then
    { image with pix := tf preprocess_type image.pix }
  else image

/-- Accumulator of the search loop of find_template: the best score seen so
far (initially -1) and the best match rectangle (x, y, width, height). -/
def MatchAcc : Type := Rat × Option (Nat × Nat × Nat × Nat)

/-- Embeds one iteration of the scale loop of find_template: a template
scaled beyond the screenshot is skipped, a raised cv2 call (mm returning
none) is skipped, and a strictly better score replaces the best match. -/
def scaleStep (mm : Img → Img → Option (Rat × Nat × Nat))
    (processed template : Img) (acc : MatchAcc) (scale : Rat) : MatchAcc :=
  let scaled := scale_image template scale
  if scaled.h > processed.h ∨ scaled.w > processed.w then acc
  else
    match mm processed scaled with
    | none => acc
    | some (v, x, y) =>
        if v > acc.1 then (v, some (x, y, scaled.w, scaled.h)) else acc

/-- Embeds one iteration of the outer loop of find_template: the screenshot
is preprocessed with one type and all scale variations are searched. -/
def ptypeStep (mm : Img → Img → Option (Rat × Nat × Nat))
    (tf : String → (Nat → Nat → Nat → Nat) → Nat → Nat → Nat → Nat)
    (screenshot template : Img) (svs : List Rat)
    (acc : MatchAcc) (ptype : String) : MatchAcc :=
  let processed := preprocess_image tf screenshot ptype
  svs.foldl (scaleStep mm processed template) acc

/-- Embeds the double loop of find_template over preprocessing types and
scale variations, keeping the globally best scoring match. -/
def searchBest (mm : Img → Img → Option (Rat × Nat × Nat))
    (tf : String → (Nat → Nat → Nat → Nat) → Nat → Nat → Nat → Nat)
    (screenshot template : Img) (pts : List String) (svs : List Rat) :
    MatchAcc :=
  pts.foldl (ptypeStep mm tf screenshot template svs) ((-1 : Rat), none)

/-- Embeds ImageProcessor.find_template. The cv2.matchTemplate plus
cv2.minMaxLoc pair is the oracle mm: for a processed screenshot and a scaled
template it yields the best score and its location, or none when the call
raises. The lazy template load from disk is the oracle assets. The returned
value is the found rectangle or none; the processor state is returned with
the resolution cache and template cache updates applied. All failure paths
of the source (empty screenshot, unknown template, template larger than the
screenshot, best score below the threshold) return none. -/
def find_template (mm : Img → Img → Option (Rat × Nat × Nat))
    (tf : String → (Nat → Nat → Nat → Nat) → Nat → Nat → Nat → Nat)
    (assets : String → Option Img)
    (p : ImageProcessor) (screenshot : Img) (template_name : String)
    (threshold : Option Rat) (preprocess_types : Option (List String))
    (scale_variations : Option (List Rat)) :
    Option (Nat × Nat × Nat × Nat) × ImageProcessor :=
  if screenshot.size == 0 then (none, p)
  else
    match detect_resolution p screenshot with
    | (_, p1) =>
        let thr := threshold.getD (get_optimal_threshold p1 template_name)
        let pts := preprocess_types.getD ["default"]
        let svs := scale_variations.getD
          [p1.scale_factor, p1.scale_factor * (9/10), p1.scale_factor * (11/10)]
        let loaded : Option (Img × ImageProcessor) :=
          match getKeyG p1.templates template_name with
          | some t => some (t, p1)
          | none =>
              match assets template_name with
              | some img =>
                  some (img, { p1 with templates := setKeyG p1.templates template_name img })
              | none => none
        match loaded with
        | none => (none, p1)
        | some (t, p2) =>
            if t.h > screenshot.h ∨ t.w > screenshot.w then (none, p2)
            else
              match searchBest mm tf screenshot t pts svs with
              | (best_val, best_match) =>
                  if best_val ≥ thr then (best_match, p2) else (none, p2)

/-- Outcome of one capture and search attempt inside wait_for_template. -/
inductive AttemptOutcome where
  | found (pt : Nat × Nat)
  | missed
  | raised
deriving DecidableEq

/-- The part of an attempt outcome that the polling loop of
wait_for_template reacts to: a raised attempt and a missed attempt are both
non-results and the loop proceeds. -/
def outcomeView : AttemptOutcome → Option (Nat × Nat)
  | AttemptOutcome.found pt => some pt
  | AttemptOutcome.missed => none
  | AttemptOutcome.raised => none

/-- Embeds the while loop of ImageProcessor.wait_for_template. elapsed n is
the wall clock time that has passed when the loop condition is evaluated for
the n-th iteration; res n is the outcome of the n-th capture and search
attempt. The fuel argument only serves termination; the caller supplies
enough fuel that the attempts bound of the source is what stops the loop.
Returns the found center (or none) and the number of attempts made. -/
def waitLoop (elapsed : Nat → Rat) (res : Nat → AttemptOutcome) (timeout : Rat)
    (max_attempts : Nat) : Nat → Nat → Option (Nat × Nat) × Nat
  | 0, n => (none, n)
  | fuel + 1, n =>
      if elapsed n < timeout ∧ n < max_attempts then
        match res n with
        | AttemptOutcome.found pt => (some pt, n)
        | _ => waitLoop elapsed res timeout max_attempts fuel (n + 1)
      else (none, n)

/-- Embeds ImageProcessor.wait_for_template: polls until a match is found,
the timeout elapses, or max_attempts (default 20) attempts have been made. -/
def wait_for_template (elapsed : Nat → Rat) (res : Nat → AttemptOutcome)
    (timeout : Rat) (max_attempts : Nat := 20) : Option (Nat × Nat) × Nat :=
  waitLoop elapsed res timeout max_attempts (max_attempts + 1) 0

/-! Concrete fixtures used by the counterexamples and witnesses below. -/

/-- A stop flag that is never set. -/
def sigmaOff : Nat → Bool := fun _ => false

/-- A stop flag that is set from the second query on; it is monotone. -/
def sigmaLate : Nat → Bool := fun n => decide (1 ≤ n)

/-- A step whose action returns False, a falsy completion signal, on every
attempt, without raising. -/
def falsyStep : TutorialStep :=
  { id := "s1", action := fun _ => ActionResult.ret false }

/-- An engine whose script is the single step falsyStep. -/
def falsyEngine : TutorialEngine := { steps := [falsyStep] }

/-- A step whose action raises on every attempt, with a retry budget of 2. -/
def raisingStep : TutorialStep :=
  { id := "s1", action := fun _ => ActionResult.raise, retry_count := 2 }

/-- An engine whose script is the single step raisingStep. -/
def raisingEngine : TutorialEngine := { steps := [raisingStep] }

/-- A step with id s1 whose action succeeds immediately. -/
def okStepA : TutorialStep :=
  { id := "s1", action := fun _ => ActionResult.ret true }

/-- A step with id s2 whose action succeeds immediately. -/
def okStepB : TutorialStep :=
  { id := "s2", action := fun _ => ActionResult.ret true }

/-- An engine running a two step script whose current step is the second
step, as it is during the execution of that step. -/
def midRunEngine : TutorialEngine :=
  { steps := [okStepA, okStepB], server_range := (5, 42),
    current_step := some okStepB }

/-- A 10 by 10 reference image with constant content. -/
def tmpl10 : Img := { h := 10, w := 10, pix := fun _ _ _ => 5 }

/-- A 100 by 100 captured frame. -/
def frame100 : Img := { h := 100, w := 100, pix := fun _ _ _ => 1 }

/-- A 5 by 5 captured frame, smaller than tmpl10. -/
def frame5 : Img := { h := 5, w := 5, pix := fun _ _ _ => 1 }

/-- An empty captured frame. -/
def emptyImg : Img := { h := 0, w := 0, pix := fun _ _ _ => 0 }

/-- An image processor as built by the initializer, with the single
reference image btn loaded. -/
def procBtn : ImageProcessor :=
  { templates := [("btn", tmpl10)],
    template_thresholds := defaultThresholds,
    resolution_map := defaultResolutionMap }

/-- A matching oracle whose best score is always zero, below every
configured threshold. -/
def mmZero : Img → Img → Option (Rat × Nat × Nat) := fun _ _ => some (0, 0, 0)

/-- The threshold value 0.8 of the source, as an explicit rational. -/
def thr45 : Rat := ⟨4, 5, by norm_num, by norm_num⟩

/-- A trivial content transform oracle for preprocessing. -/
def tfId : String → (Nat → Nat → Nat → Nat) → Nat → Nat → Nat → Nat :=
  fun _ f => f

/-- An assets directory with no further files on disk. -/
def noAssets : String → Option Img := fun _ => none

/-- A wall clock under which the n-th loop condition check of the polling
loop happens n seconds after the start. -/
def secClock : Nat → Rat := fun n => (n : Rat)

/-- Attempts that never find the template. -/
def neverFound : Nat → AttemptOutcome := fun _ => AttemptOutcome.missed

/-- Attempts in which the capture or the search raises every time. -/
def alwaysRaised : Nat → AttemptOutcome := fun _ => AttemptOutcome.raised

/-- A freshly constructed executor with no emulator initialized. -/
def emptyExecutor : ExecutorState := {}

/-- A fresh ADB controller state with no buffered screenshot. -/
def freshADB : ADBState := {}

/-! Helper lemmas shared by several claim theorems. -/

theorem getKeyG_setKeyG {α : Type} (m : List (String × α)) (k : String) (v : α) :
    getKeyG (setKeyG m k v) k = some v := by
  induction m with
  | nil => simp [setKeyG, getKeyG, List.find?]
  | cons p rest ih =>
      by_cases hp : p.1 == k
      · simp [setKeyG, getKeyG, hp, List.find?]
      · simp only [setKeyG, hp, if_false, Bool.false_eq_true]
        simpa [getKeyG, List.find?, hp] using ih

theorem findStepIndex_of_first {l : List TutorialStep} {i : Nat} {s : TutorialStep}
    (hnth : l[i]? = some s)
    (huniq : ∀ j t, l[j]? = some t → t.id = s.id → j = i) :
    findStepIndex s.id l = some i := by
  induction l generalizing i with
  | nil => simp at hnth
  | cons a tl ih =>
      cases i with
      | zero =>
          have ha : a = s := by simpa using hnth
          subst ha
          simp [findStepIndex]
      | succ j =>
          have ha : (a.id == s.id) = false := by
            by_cases h : a.id = s.id
            · exact absurd (huniq 0 a (by simp) h) (by omega)
            · simpa using h
          have htl : tl[j]? = some s := by simpa using hnth
          have huniq2 : ∀ j2 t, tl[j2]? = some t → t.id = s.id → j2 = j := by
            intro j2 t hj ht
            have := huniq (j2 + 1) t (by simpa using hj) ht
            omega
          simp [findStepIndex, ha, ih htl huniq2]

/-! C2. The retry mechanism reacts only to raised exceptions: a falsy return
value of the action of a step is recorded as success. -/

/-- C2: at the failing input falsyEngine, whose single step action returns
the falsy completion signal False on every attempt, the run executes the
action exactly once, reports the step as succeeded, and reports the whole
run as successful — instead of attempting the action retry_count times and
then failing as the specification requires. -/
theorem falsy_action_counted_as_success :
    (run_tutorial sigmaOff 7 falsyEngine).2.1.filter isAct = [Event.act 0 0] ∧
    Event.stepComplete "s1" true ∈ (run_tutorial sigmaOff 7 falsyEngine).2.1 ∧
    (run_tutorial sigmaOff 7 falsyEngine).2.2 = true := by
  decide

/-! C3. The final outcome test compares only step ids, so a final step that
exhausted its retries still yields a successful outcome. -/

/-- C3: at the failing input raisingEngine, whose single (hence final) step
raises on both of its 2 budgeted attempts, the step is reported failed, yet
the run is reported as completed successfully to the completion callback —
the source compares the id of the last visited step with the id of the last
script step and ignores whether that step succeeded. -/
theorem final_step_failure_reported_completed :
    (run_tutorial sigmaOff 7 raisingEngine).2.1.filter isAct
      = [Event.act 0 0, Event.act 0 1] ∧
    Event.stepComplete "s1" false ∈ (run_tutorial sigmaOff 7 raisingEngine).2.1 ∧
    (run_tutorial sigmaOff 7 raisingEngine).2.2 = true := by
  decide

/-! C1. start_tutorial accepts a second submission for a device whose first
task has not reached a terminal state. -/

/-- C1 counterexample: two submissions for the same emulator id, the second
while the task of the first is still queued and recorded as current, both
return task ids, and after two dispatch iterations both tasks have been
submitted to the worker pool — the second submission is neither rejected
nor held back. -/
theorem start_tutorial_second_submission_accepted :
    (start_tutorial emptyExecutor "emulator-5554" 100).1
      = some "tutorial_emulator-5554_100" ∧
    (start_tutorial (start_tutorial emptyExecutor "emulator-5554" 100).2
        "emulator-5554" 101).1 = some "tutorial_emulator-5554_101" ∧
    (task_queue_worker_step (task_queue_worker_step
        (start_tutorial (start_tutorial emptyExecutor "emulator-5554" 100).2
          "emulator-5554" 101).2)).futures
      = [⟨"emulator-5554", "tutorial_emulator-5554_100"⟩,
         ⟨"emulator-5554", "tutorial_emulator-5554_101"⟩] := by
  decide

/-- C1 amended: start_tutorial performs no active-task check: even when a
task for the emulator id is still recorded as current, a second submission
succeeds, returns a fresh task id, rebinds the current task entry of the
device, and appends a second runnable task for the same device to the
dispatch queue. -/
theorem start_tutorial_no_active_check (s : ExecutorState) (emulator_id : String)
    (now : Nat) (active : EmulatorTask)
    (_hactive : getKeyG s.current_tasks emulator_id = some active) :
    (start_tutorial s emulator_id now).1 = some (mkTaskId emulator_id now) ∧
    (start_tutorial s emulator_id now).2.task_queue
      = s.task_queue ++ [⟨emulator_id, mkTaskId emulator_id now⟩] ∧
    getKeyG (start_tutorial s emulator_id now).2.current_tasks emulator_id
      = some ⟨emulator_id, mkTaskId emulator_id now⟩ := by
  unfold start_tutorial initialize_emulator initialize_tutorial_engine
  by_cases hmem : s.adb_controllers.any (fun c => c == emulator_id)
  · simp [hmem, getKeyG_setKeyG]
  · simp [hmem, getKeyG_setKeyG]

/-- C1 amended, witness: concrete instantiation with a one-submission state
whose task is still current. -/
theorem start_tutorial_no_active_check_witness :
    getKeyG (start_tutorial emptyExecutor "emulator-5554" 100).2.current_tasks
        "emulator-5554"
      = some ⟨"emulator-5554", "tutorial_emulator-5554_100"⟩ ∧
    ((start_tutorial (start_tutorial emptyExecutor "emulator-5554" 100).2
        "emulator-5554" 101).1 = some (mkTaskId "emulator-5554" 101) ∧
      (start_tutorial (start_tutorial emptyExecutor "emulator-5554" 100).2
          "emulator-5554" 101).2.task_queue
        = (start_tutorial emptyExecutor "emulator-5554" 100).2.task_queue
            ++ [⟨"emulator-5554", mkTaskId "emulator-5554" 101⟩] ∧
      getKeyG (start_tutorial (start_tutorial emptyExecutor "emulator-5554" 100).2
          "emulator-5554" 101).2.current_tasks "emulator-5554"
        = some ⟨"emulator-5554", mkTaskId "emulator-5554" 101⟩) := by
  have h : getKeyG (start_tutorial emptyExecutor "emulator-5554" 100).2.current_tasks
      "emulator-5554" = some ⟨"emulator-5554", "tutorial_emulator-5554_100"⟩ := by
    decide
  exact ⟨h, start_tutorial_no_active_check
    (start_tutorial emptyExecutor "emulator-5554" 100).2 "emulator-5554" 101
    ⟨"emulator-5554", "tutorial_emulator-5554_100"⟩ h⟩

/-! C9. The coordinate and timing based step helpers always return True. -/

/-- C9: click_on_coordinates, perform_swipe, perform_complex_swipe and
wait_fixed_time return True on every input, whatever the outcome of the
underlying device command, so their return value can never trigger the
per-step retry mechanism. -/
theorem fixed_actions_always_true (x y : Int) (wait_time : Rat)
    (tapCmd : PyResult) (x1 y1 x2 y2 : Int) (d1 d2 : Nat)
    (points : List (Int × Int)) (seconds : Rat) :
    (click_on_coordinates x y wait_time tapCmd).2 = true ∧
    (perform_swipe x1 y1 x2 y2 d1).2 = true ∧
    (perform_complex_swipe points d2).2 = true ∧
    (wait_fixed_time seconds).2 = true :=
  ⟨rfl, rfl, rfl, rfl⟩

/-! C7. The polling loop can return before the timeout elapses. -/

/-- C7 counterexample: with attempts one second apart and a timeout of 100
seconds, wait_for_template returns none after its 20th attempt when only 20
seconds have elapsed — the attempts bound, not the timeout, ends the wait. -/
theorem wait_for_template_stops_before_timeout :
    wait_for_template secClock neverFound 100 = (none, 20) ∧
    secClock 20 < 100 := by
  decide

/-! C6. All failure cases of find_template return the same value none. -/

/-- C6 counterexample: an empty frame and a frame smaller than the
reference image produce exactly the same result value none as a valid frame
in which no candidate clears the threshold: the caller cannot distinguish an
invalid input from an ordinary miss. -/
theorem find_template_invalid_input_indistinguishable :
    (find_template mmZero tfId noAssets procBtn emptyImg "btn" (some thr45)
        (some ["default"]) (some [1])).1 = none ∧
    (find_template mmZero tfId noAssets procBtn frame5 "btn" (some thr45)
        (some ["default"]) (some [1])).1 = none ∧
    (find_template mmZero tfId noAssets procBtn frame100 "btn" (some thr45)
        (some ["default"]) (some [1])).1 = none := by
  decide

/-! C5. Checkpoint save and restore round-trip. -/

/-- C5: saving a checkpoint under an id while a step is current, and
immediately restoring that id, succeeds; the restored engine carries the
exact server range active at save time, and the next run starts at the index
of the step that was current at save time (the hypotheses state that the
current step sits at index i and that no other step shares its id, the
script invariant of unique step ids). -/
theorem checkpoint_round_trip_resumes (e : TutorialEngine) (s : TutorialStep)
    (i : Nat) (cid : String) (now : Nat)
    (hcur : e.current_step = some s)
    (hnth : e.steps[i]? = some s)
    (huniq : ∀ j t, e.steps[j]? = some t → t.id = s.id → j = i) :
    (restore_checkpoint (save_checkpoint e now (some cid)).2 (some cid)).1 = true ∧
    startIndex (restore_checkpoint (save_checkpoint e now (some cid)).2 (some cid)).2
      = i ∧
    (restore_checkpoint (save_checkpoint e now (some cid)).2 (some cid)).2.server_range
      = e.server_range := by
  have hsave : (save_checkpoint e now (some cid)).2
      = { e with checkpoints := setKeyG e.checkpoints cid ⟨s.id, now, e.server_range⟩,
                 last_checkpoint_id := some cid } := by
    simp [save_checkpoint, hcur]
  have hfind : findStepIndex s.id e.steps = some i := findStepIndex_of_first hnth huniq
  rw [hsave]
  simp [restore_checkpoint, getKeyG_setKeyG, hfind, startIndex]

/-- C5 witness: the round trip at the concrete engine midRunEngine, whose
current step is the second of its two uniquely named steps. -/
theorem checkpoint_round_trip_resumes_witness :
    midRunEngine.current_step = some okStepB ∧
    midRunEngine.steps[1]? = some okStepB ∧
    (∀ j t, midRunEngine.steps[j]? = some t → t.id = okStepB.id → j = 1) ∧
    ((restore_checkpoint (save_checkpoint midRunEngine 9 (some "cp1")).2
        (some "cp1")).1 = true ∧
      startIndex (restore_checkpoint (save_checkpoint midRunEngine 9 (some "cp1")).2
        (some "cp1")).2 = 1 ∧
      (restore_checkpoint (save_checkpoint midRunEngine 9 (some "cp1")).2
        (some "cp1")).2.server_range = midRunEngine.server_range) := by
  have huniq : ∀ j t, midRunEngine.steps[j]? = some t → t.id = okStepB.id → j = 1 := by
    intro j t hj ht
    match j with
    | 0 =>
        have hta : okStepA = t := by simpa [midRunEngine] using hj
        rw [← hta] at ht
        simp [okStepA, okStepB] at ht
    | 1 => rfl
    | j + 2 => simp [midRunEngine] at hj
  exact ⟨rfl, rfl, huniq,
    checkpoint_round_trip_resumes midRunEngine okStepB 1 "cp1" 9 rfl rfl huniq⟩

/-! C4. The completion callback fires exactly once, last, and the current
step marker ends cleared. -/

theorem attemptLoop_no_complete (σ : Nat → Bool) (now : Nat) (step : TutorialStep)
    (i : Nat) (e : TutorialEngine) (r a c : Nat) (b : Bool) :
    Event.tutorialComplete b ∉ (attemptLoop σ now step i e r a c).2.2.1 := by
  induction r generalizing e a c with
  | zero => simp [attemptLoop]
  | succ r ih =>
      unfold attemptLoop
      by_cases hσ : σ c
      · simp [hσ]
      · simp only [hσ, Bool.false_eq_true, if_false]
        rcases hact : step.action a with v | _
        · by_cases hc : i % 5 == 0
          · rcases hsv : save_checkpoint e now none with ⟨cid?, e2⟩
            rcases cid? with _ | cid <;> simp [hc]
          · simp [hc]
        · rcases hrec : attemptLoop σ now step i e r (a + 1) (c + 1) with ⟨e2, c2, evs, ok⟩
          have ihe : Event.tutorialComplete b ∉ evs := by
            have h2 := ih e (a + 1) (c + 1)
            rw [hrec] at h2
            exact h2
          by_cases hs : a < step.retry_count - 1 <;> simp [hs, ihe]

theorem stepLoop_no_complete (σ : Nat → Bool) (now : Nat) (e : TutorialEngine)
    (rest : List TutorialStep) (i c : Nat) (b : Bool) :
    Event.tutorialComplete b ∉ (stepLoop σ now e rest i c).2.2 := by
  induction rest generalizing e i c with
  | nil => simp [stepLoop]
  | cons step rest2 ih =>
      unfold stepLoop
      by_cases hσ : σ c
      · simp [hσ]
      · simp only [hσ, Bool.false_eq_true, if_false]
        rcases hrec : attemptLoop σ now step i { e with current_step := some step }
            step.retry_count 0 (c + 1) with ⟨e2, c2, evs, ok⟩
        have ha : Event.tutorialComplete b ∉ evs := by
          have h2 := attemptLoop_no_complete σ now step i
            { e with current_step := some step } step.retry_count 0 (c + 1) b
          rw [hrec] at h2
          exact h2
        rcases ok with _ | _
        · simp [ha]
        · rcases hrec2 : stepLoop σ now e2 rest2 (i + 1) c2 with ⟨e3, c3, evs3⟩
          have ih2 : Event.tutorialComplete b ∉ evs3 := by
            have h3 := ih e2 (i + 1) c2
            rw [hrec2] at h3
            exact h3
          simp [ha, ih2]

/-- C4: every run, however it ends — completion, step exhaustion,
cancellation, or the exception branch of an out of range resume index —
invokes the tutorial completion callback exactly once, with the final
outcome, as the last event of the trace, and leaves the current step marker
cleared in the final engine state. -/
theorem run_tutorial_completion_exactly_once (σ : Nat → Bool) (now : Nat)
    (e : TutorialEngine) :
    (run_tutorial σ now e).2.1.filter isComplete
      = [Event.tutorialComplete (run_tutorial σ now e).2.2] ∧
    (run_tutorial σ now e).2.1.getLast?
      = some (Event.tutorialComplete (run_tutorial σ now e).2.2) ∧
    (run_tutorial σ now e).1.current_step = none := by
  unfold run_tutorial
  by_cases hidx : 0 < startIndex e ∧ e.steps.length ≤ startIndex e
  · simp [hidx, isComplete]
  · simp only [hidx, if_false]
    rcases hrec : stepLoop σ now e (e.steps.drop (startIndex e)) (startIndex e) 0
      with ⟨e1, c1, evs⟩
    have hnc : ∀ b, Event.tutorialComplete b ∉ evs := by
      intro b
      have h2 := stepLoop_no_complete σ now e (e.steps.drop (startIndex e))
        (startIndex e) 0 b
      rw [hrec] at h2
      exact h2
    have hfil : evs.filter isComplete = [] := by
      rw [List.filter_eq_nil_iff]
      intro ev hev
      cases ev
      case tutorialComplete b3 => exact absurd hev (hnc b3)
      all_goals simp [isComplete]
    have hlast : ∀ b2 b3, (evs ++ [Event.checked b2, Event.tutorialComplete b3]).getLast?
        = some (Event.tutorialComplete b3) := by
      intro b2 b3
      rw [show evs ++ [Event.checked b2, Event.tutorialComplete b3]
          = (evs ++ [Event.checked b2]) ++ [Event.tutorialComplete b3] by
        simp]
      simp
    simp [List.filter_append, hfil, hlast, isComplete]

/-! C8. Cancellation machinery: once a query of the stop flag observes it
set, the trace ends at once. -/

theorem attemptLoop_stop_shape (σ : Nat → Bool) (now : Nat) (step : TutorialStep)
    (i : Nat) (e : TutorialEngine) (r a c : Nat) :
    Event.checked true ∈ (attemptLoop σ now step i e r a c).2.2.1 →
      (attemptLoop σ now step i e r a c).2.2.2 = false ∧
      ∃ evs0, (attemptLoop σ now step i e r a c).2.2.1
          = evs0 ++ [Event.checked true] ∧
        Event.checked true ∉ evs0 := by
  induction r generalizing e a c with
  | zero => intro hmem; simp [attemptLoop] at hmem
  | succ r ih =>
      intro hmem
      unfold attemptLoop at hmem ⊢
      by_cases hσ : σ c
      · simp only [hσ, if_true]
        exact ⟨trivial, [], by simp⟩
      · simp only [hσ, Bool.false_eq_true, if_false] at hmem ⊢
        revert hmem
        rcases hact : step.action a with v | _ <;> intro hmem
        · by_cases hc : i % 5 == 0
          · revert hmem
            rcases hsv : save_checkpoint e now none with ⟨_ | cid, e2⟩ <;>
              intro hmem <;> simp [hc] at hmem
          · simp [hc] at hmem
        · revert hmem
          rcases hrec : attemptLoop σ now step i e r (a + 1) (c + 1)
            with ⟨e2, c2, evs, ok⟩
          intro hmem
          have ihr := ih e (a + 1) (c + 1)
          rw [hrec] at ihr
          by_cases hs : a < step.retry_count - 1
          · simp only [hs, if_true] at hmem ⊢
            have hmem2 : Event.checked true ∈ evs := by simpa using hmem
            rcases ihr hmem2 with ⟨hok, evs0, hevs, hnot⟩
            refine ⟨hok, Event.checked false :: Event.act i a ::
              Event.sleepSec :: evs0, ?_, ?_⟩
            · simpa using hevs
            · simp [hnot]
          · simp only [hs, Bool.false_eq_true, if_false] at hmem ⊢
            have hmem2 : Event.checked true ∈ evs := by simpa using hmem
            rcases ihr hmem2 with ⟨hok, evs0, hevs, hnot⟩
            refine ⟨hok, Event.checked false :: Event.act i a :: evs0, ?_, ?_⟩
            · simpa using hevs
            · simp [hnot]

theorem stepLoop_stop_shape (σ : Nat → Bool) (now : Nat) (e : TutorialEngine)
    (rest : List TutorialStep) (i c : Nat) :
    Event.checked true ∈ (stepLoop σ now e rest i c).2.2 →
      ∃ l1 l2, (stepLoop σ now e rest i c).2.2
          = l1 ++ Event.checked true :: l2 ∧
        Event.checked true ∉ l1 ∧ l2.all cleanEv = true := by
  induction rest generalizing e i c with
  | nil => intro hmem; simp [stepLoop] at hmem
  | cons step rest2 ih =>
      intro hmem
      unfold stepLoop at hmem ⊢
      by_cases hσ : σ c
      · simp only [hσ, if_true]
        exact ⟨[], [], rfl, by simp, rfl⟩
      · simp only [hσ, Bool.false_eq_true, if_false] at hmem ⊢
        revert hmem
        rcases hrec : attemptLoop σ now step i { e with current_step := some step }
            step.retry_count 0 (c + 1) with ⟨e2, c2, evs, ok⟩
        intro hmem
        have hshape := attemptLoop_stop_shape σ now step i
          { e with current_step := some step } step.retry_count 0 (c + 1)
        rw [hrec] at hshape
        rcases ok with _ | _
        · -- the step failed: the loop stops after the step completion event
          by_cases hmemA : Event.checked true ∈ evs
          · rcases hshape hmemA with ⟨_, evs0, hevs, hnot⟩
            have hevs2 : evs = evs0 ++ [Event.checked true] := by simpa using hevs
            refine ⟨Event.checked false :: evs0,
              [Event.stepComplete step.id false], ?_, ?_, ?_⟩
            · simp [hevs2]
            · simp [hnot]
            · simp [cleanEv]
          · exfalso
            simp [hmemA] at hmem
        · -- the step succeeded: no stop was observed during its attempts
          have hnotA : Event.checked true ∉ evs := by
            intro hA
            rcases hshape hA with ⟨hfalse, _⟩
            simp at hfalse
          revert hmem
          rcases hrec2 : stepLoop σ now e2 rest2 (i + 1) c2 with ⟨e3, c3, evs3⟩
          intro hmem
          have hmem3 : Event.checked true ∈ evs3 := by
            simpa [hnotA] using hmem
          have ihr := ih e2 (i + 1) c2
          rw [hrec2] at ihr
          rcases ihr hmem3 with ⟨l1, l2, hevs3, hnot1, hclean⟩
          have hevs3b : evs3 = l1 ++ Event.checked true :: l2 := by simpa using hevs3
          refine ⟨(Event.checked false :: evs ++ [Event.stepComplete step.id true])
            ++ l1, l2, ?_, ?_, hclean⟩
          · simp [hevs3b]
          · simp [hnotA, hnot1]

theorem run_tutorial_stop_shape (σ : Nat → Bool) (now : Nat) (e : TutorialEngine) :
    Event.checked true ∈ (run_tutorial σ now e).2.1 →
      ∃ l1 l2, (run_tutorial σ now e).2.1 = l1 ++ Event.checked true :: l2 ∧
        Event.checked true ∉ l1 ∧ l2.all cleanEv = true := by
  intro hmem
  unfold run_tutorial at hmem ⊢
  by_cases hidx : 0 < startIndex e ∧ e.steps.length ≤ startIndex e
  · simp [hidx] at hmem
  · simp only [hidx, if_false] at hmem ⊢
    revert hmem
    rcases hrec : stepLoop σ now e (e.steps.drop (startIndex e)) (startIndex e) 0
      with ⟨e1, c1, evs⟩
    intro hmem
    have hshape := stepLoop_stop_shape σ now e (e.steps.drop (startIndex e))
      (startIndex e) 0
    rw [hrec] at hshape
    by_cases hmemE : Event.checked true ∈ evs
    · rcases hshape hmemE with ⟨l1, l2, hevs, hnot1, hclean⟩
      have hevs2 : evs = l1 ++ Event.checked true :: l2 := by simpa using hevs
      refine ⟨l1, l2 ++ [Event.checked (σ c1),
        Event.tutorialComplete (if σ c1 then false
          else match e1.current_step, e1.steps.getLast? with
            | some cs, some last => cs.id == last.id
            | _, _ => false)], ?_, hnot1, ?_⟩
      · simp [hevs2]
      · simp only [List.all_append, hclean, Bool.true_and]
        simp [cleanEv]
    · have hb : σ c1 = true := by
        simp only [List.mem_append, List.mem_cons, List.mem_singleton] at hmem
        rcases hmem with h | h | h
        · exact absurd h hmemE
        · simpa using h
        · exact absurd h (by simp)
      refine ⟨evs, [Event.tutorialComplete (if σ c1 then false
          else match e1.current_step, e1.steps.getLast? with
            | some cs, some last => cs.id == last.id
            | _, _ => false)], ?_, hmemE, by simp [cleanEv]⟩
      rw [hb]

theorem clean_after_first :
    ∀ (pre tr l1 l2 suf : List Event),
      tr = l1 ++ Event.checked true :: l2 → Event.checked true ∉ l1 →
      l2.all cleanEv = true → tr = pre ++ Event.checked true :: suf →
      suf.all cleanEv = true := by
  intro pre
  induction pre with
  | nil =>
      intro tr l1 l2 suf hshape hnot hclean hsplit
      rw [hsplit, List.nil_append] at hshape
      cases l1 with
      | nil =>
          rw [List.nil_append] at hshape
          injection hshape with h1 h2
          rw [h2]
          exact hclean
      | cons x l1x =>
          rw [List.cons_append] at hshape
          injection hshape with h1 h2
          exact absurd (by rw [h1]; exact List.mem_cons_self x l1x) hnot
  | cons x prex ih =>
      intro tr l1 l2 suf hshape hnot hclean hsplit
      rw [hsplit, List.cons_append] at hshape
      cases l1 with
      | nil =>
          rw [List.nil_append] at hshape
          injection hshape with h1 h2
          rw [List.all_eq_true] at hclean ⊢
          intro a ha
          apply hclean
          rw [← h2]
          exact List.mem_append_right _ (List.mem_cons_of_mem _ ha)
      | cons y l1y =>
          rw [List.cons_append] at hshape
          injection hshape with h1 h2
          have hnot2 : Event.checked true ∉ l1y := fun h => hnot (by simp [h])
          exact ih (l1y ++ Event.checked true :: l2) l1y l2 suf rfl hnot2 hclean
            h2.symm

theorem attemptLoop_checks_le (σ : Nat → Bool) (now : Nat) (step : TutorialStep)
    (i : Nat) (e : TutorialEngine) (r a c : Nat) :
    c ≤ (attemptLoop σ now step i e r a c).2.1 := by
  induction r generalizing e a c with
  | zero => simp [attemptLoop]
  | succ r ih =>
      unfold attemptLoop
      by_cases hσ : σ c
      · simp [hσ]
      · simp only [hσ, Bool.false_eq_true, if_false]
        rcases step.action a with v | _
        · by_cases hc : i % 5 == 0
          · rcases save_checkpoint e now none with ⟨cid?, e2⟩
            rcases cid? with _ | cid <;> simp [hc]
          · simp [hc]
        · rcases hrec : attemptLoop σ now step i e r (a + 1) (c + 1)
            with ⟨e2, c2, evs, ok⟩
          have ihr := ih e (a + 1) (c + 1)
          rw [hrec] at ihr
          have ihr2 : c + 1 ≤ c2 := ihr
          show c ≤ c2
          omega

theorem stepLoop_checks_le (σ : Nat → Bool) (now : Nat) (e : TutorialEngine)
    (rest : List TutorialStep) (i c : Nat) :
    c ≤ (stepLoop σ now e rest i c).2.1 := by
  induction rest generalizing e i c with
  | nil => simp [stepLoop]
  | cons step rest2 ih =>
      unfold stepLoop
      by_cases hσ : σ c
      · simp [hσ]
      · simp only [hσ, Bool.false_eq_true, if_false]
        rcases hrec : attemptLoop σ now step i { e with current_step := some step }
            step.retry_count 0 (c + 1) with ⟨e2, c2, evs, ok⟩
        have hle := attemptLoop_checks_le σ now step i
          { e with current_step := some step } step.retry_count 0 (c + 1)
        rw [hrec] at hle
        have hle2 : c + 1 ≤ c2 := hle
        rcases ok with _ | _
        · show c ≤ c2
          omega
        · rcases hrec2 : stepLoop σ now e2 rest2 (i + 1) c2 with ⟨e3, c3, evs3⟩
          have ih2 := ih e2 (i + 1) c2
          rw [hrec2] at ih2
          have ih3 : c2 ≤ c3 := ih2
          show c ≤ c3
          omega

theorem attemptLoop_checked_val (σ : Nat → Bool) (now : Nat) (step : TutorialStep)
    (i : Nat) (e : TutorialEngine) (r a c : Nat) (b : Bool) :
    Event.checked b ∈ (attemptLoop σ now step i e r a c).2.2.1 →
      ∃ k, c ≤ k ∧ k < (attemptLoop σ now step i e r a c).2.1 ∧ σ k = b := by
  induction r generalizing e a c with
  | zero => intro hmem; simp [attemptLoop] at hmem
  | succ r ih =>
      intro hmem
      unfold attemptLoop at hmem ⊢
      by_cases hσ : σ c
      · simp only [hσ, if_true] at hmem ⊢
        simp only [List.mem_singleton, Event.checked.injEq] at hmem
        exact ⟨c, le_refl c, by omega, by rw [hσ, hmem]⟩
      · simp only [hσ, Bool.false_eq_true, if_false] at hmem ⊢
        have hσc : σ c = false := by simpa using hσ
        revert hmem
        rcases hact : step.action a with v | _ <;> intro hmem
        · by_cases hc : i % 5 == 0
          · revert hmem
            rcases hsv : save_checkpoint e now none with ⟨_ | cid, e2⟩ <;> intro hmem
            · have hb : b = false := by simpa [hc] using hmem
              simp only [hc, if_true]
              exact ⟨c, le_refl c, Nat.lt_succ_self c, by rw [hσc, hb]⟩
            · have hb : b = false := by simpa [hc] using hmem
              simp only [hc, if_true]
              exact ⟨c, le_refl c, Nat.lt_succ_self c, by rw [hσc, hb]⟩
          · have hb : b = false := by simpa [hc] using hmem
            simp only [hc, Bool.false_eq_true, if_false]
            exact ⟨c, le_refl c, Nat.lt_succ_self c, by rw [hσc, hb]⟩
        · revert hmem
          rcases hrec : attemptLoop σ now step i e r (a + 1) (c + 1)
            with ⟨e2, c2, evs, ok⟩
          intro hmem
          have hle : c + 1 ≤ c2 := by
            have h2 := attemptLoop_checks_le σ now step i e r (a + 1) (c + 1)
            rw [hrec] at h2
            exact h2
          have ihr := ih e (a + 1) (c + 1)
          rw [hrec] at ihr
          have hcases : b = false ∨ Event.checked b ∈ evs := by
            by_cases hs : a < step.retry_count - 1 <;> simp [hs] at hmem <;>
              tauto
          rcases hcases with hb | h2
          · have hck : c < c2 := by omega
            exact ⟨c, le_refl c, hck, by rw [hσc, hb]⟩
          · rcases ihr h2 with ⟨k, hk1, hk2, hk3⟩
            have hk1b : c ≤ k := by omega
            have hk2b : k < c2 := hk2
            exact ⟨k, hk1b, hk2b, hk3⟩

theorem stepLoop_checked_val (σ : Nat → Bool) (now : Nat) (e : TutorialEngine)
    (rest : List TutorialStep) (i c : Nat) (b : Bool) :
    Event.checked b ∈ (stepLoop σ now e rest i c).2.2 →
      ∃ k, c ≤ k ∧ k < (stepLoop σ now e rest i c).2.1 ∧ σ k = b := by
  induction rest generalizing e i c with
  | nil => intro hmem; simp [stepLoop] at hmem
  | cons step rest2 ih =>
      intro hmem
      unfold stepLoop at hmem ⊢
      by_cases hσ : σ c
      · simp only [hσ, if_true] at hmem ⊢
        simp only [List.mem_singleton, Event.checked.injEq] at hmem
        exact ⟨c, le_refl c, by omega, by rw [hσ, hmem]⟩
      · simp only [hσ, Bool.false_eq_true, if_false] at hmem ⊢
        have hσc : σ c = false := by simpa using hσ
        revert hmem
        rcases hrec : attemptLoop σ now step i { e with current_step := some step }
            step.retry_count 0 (c + 1) with ⟨e2, c2, evs, ok⟩
        intro hmem
        have hle : c + 1 ≤ c2 := by
          have h2 := attemptLoop_checks_le σ now step i
            { e with current_step := some step } step.retry_count 0 (c + 1)
          rw [hrec] at h2
          exact h2
        have hA : Event.checked b ∈ evs →
            ∃ k, c + 1 ≤ k ∧ k < c2 ∧ σ k = b := by
          intro hm
          have h2 := attemptLoop_checked_val σ now step i
            { e with current_step := some step } step.retry_count 0 (c + 1) b
          rw [hrec] at h2
          exact h2 hm
        rcases ok with _ | _
        · have hcases : b = false ∨ Event.checked b ∈ evs := by
            simp at hmem
            tauto
          rcases hcases with hb | h
          · have hck : c < c2 := by omega
            exact ⟨c, le_refl c, hck, by rw [hσc, hb]⟩
          · rcases hA h with ⟨k, hk1, hk2, hk3⟩
            have hk1b : c ≤ k := by omega
            exact ⟨k, hk1b, hk2, hk3⟩
        · revert hmem
          rcases hrec2 : stepLoop σ now e2 rest2 (i + 1) c2 with ⟨e3, c3, evs3⟩
          intro hmem
          have hle2 : c2 ≤ c3 := by
            have h2 := stepLoop_checks_le σ now e2 rest2 (i + 1) c2
            rw [hrec2] at h2
            exact h2
          have hcases : b = false ∨ Event.checked b ∈ evs ∨
              Event.checked b ∈ evs3 := by
            simp at hmem
            tauto
          rcases hcases with hb | h | h
          · have hck : c < c3 := by omega
            exact ⟨c, le_refl c, hck, by rw [hσc, hb]⟩
          · rcases hA h with ⟨k, hk1, hk2, hk3⟩
            have hk1b : c ≤ k := by omega
            have hk2b : k < c3 := by omega
            exact ⟨k, hk1b, hk2b, hk3⟩
          · have ihr := ih e2 (i + 1) c2
            rw [hrec2] at ihr
            rcases ihr h with ⟨k, hk1, hk2, hk3⟩
            have hk1b : c ≤ k := by omega
            have hk2b : k < c3 := hk2
            exact ⟨k, hk1b, hk2b, hk3⟩

/-! C10. get_screenshot is total and falls back to the buffer or the black
image. -/

/-- C10: get_screenshot never returns an empty frame — given that every
buffered frame is non-empty, which holds for every frame the function itself
ever stores — and on every capture, decode or timeout failure it returns
either the buffered last frame or the all-zero 1920x1080 black image, so the
capture result cannot distinguish an unreachable device from a genuinely
black screen. -/
theorem get_screenshot_total_fallback (st : ADBState) (t : Rat) (ub : Bool)
    (outcome : CaptureOutcome)
    (hinv : ∀ l, st.last_screenshot = some l → l.size ≠ 0) :
    (get_screenshot st t ub outcome).1.size ≠ 0 ∧
    (isCaptureFailure outcome = true →
      (get_screenshot st t ub outcome).1 = blackImg ∨
        st.last_screenshot = some (get_screenshot st t ub outcome).1) := by
  have hblack : blackImg.size ≠ 0 := by decide
  have hb0 : (blackImg.size == 0) = false := by decide
  rcases hlast : st.last_screenshot with _ | last
  · rcases outcome with _ | _ | (_ | img) | _
    · have hres : (get_screenshot st t ub CaptureOutcome.timedOut).1 = blackImg := by
        simp [get_screenshot, hlast, get_screenshot_direct, hb0]
      rw [hres]
      exact ⟨hblack, fun _ => Or.inl rfl⟩
    · have hres : (get_screenshot st t ub CaptureOutcome.cmdFailed).1 = blackImg := by
        simp [get_screenshot, hlast, get_screenshot_direct, hb0]
      rw [hres]
      exact ⟨hblack, fun _ => Or.inl rfl⟩
    · have hres : (get_screenshot st t ub (CaptureOutcome.decoded none)).1 = blackImg := by
        simp [get_screenshot, hlast, get_screenshot_direct, hb0]
      rw [hres]
      exact ⟨hblack, fun _ => Or.inl rfl⟩
    · by_cases hsz : (img.size == 0) = true
      · have hres : (get_screenshot st t ub (CaptureOutcome.decoded (some img))).1
            = blackImg := by
          simp [get_screenshot, hlast, get_screenshot_direct, hsz]
        rw [hres]
        exact ⟨hblack, fun _ => Or.inl rfl⟩
      · have hsz2 : (img.size == 0) = false := by simpa using hsz
        have hres : (get_screenshot st t ub (CaptureOutcome.decoded (some img))).1
            = img := by
          simp [get_screenshot, hlast, get_screenshot_direct, hsz2]
        rw [hres]
        refine ⟨by simpa using hsz, fun hfail => ?_⟩
        rw [show isCaptureFailure (CaptureOutcome.decoded (some img))
            = (img.size == 0) from rfl, hsz2] at hfail
        exact absurd hfail (by simp)
    · have hres : (get_screenshot st t ub CaptureOutcome.raised).1 = blackImg := by
        simp [get_screenshot, hlast, get_screenshot_direct, hb0]
      rw [hres]
      exact ⟨hblack, fun _ => Or.inl rfl⟩
  · have hlsz : last.size ≠ 0 := hinv last hlast
    by_cases hbuf : (ub && decide (t - st.last_screenshot_time < 1 / 10)) = true
    · have hres : (get_screenshot st t ub outcome).1 = last := by
        simp only [get_screenshot, hlast]
        rw [hbuf]
        simp
      rw [hres]
      exact ⟨hlsz, fun _ => Or.inr rfl⟩
    · have hbuf2 : (ub && decide (t - st.last_screenshot_time < 1 / 10)) = false := by
        simpa using hbuf
      rcases outcome with _ | _ | (_ | img) | _
      · have hres : (get_screenshot st t ub CaptureOutcome.timedOut).1 = blackImg := by
          simp only [get_screenshot, hlast, get_screenshot_direct]
          rw [hbuf2]
          simp [hb0]
        rw [hres]
        exact ⟨hblack, fun _ => Or.inl rfl⟩
      · have hres : (get_screenshot st t ub CaptureOutcome.cmdFailed).1 = blackImg := by
          simp only [get_screenshot, hlast, get_screenshot_direct]
          rw [hbuf2]
          simp [hb0]
        rw [hres]
        exact ⟨hblack, fun _ => Or.inl rfl⟩
      · have hres : (get_screenshot st t ub (CaptureOutcome.decoded none)).1
            = blackImg := by
          simp only [get_screenshot, hlast, get_screenshot_direct]
          rw [hbuf2]
          simp [hb0]
        rw [hres]
        exact ⟨hblack, fun _ => Or.inl rfl⟩
      · by_cases hsz : (img.size == 0) = true
        · have hres : (get_screenshot st t ub (CaptureOutcome.decoded (some img))).1
              = last := by
            simp only [get_screenshot, hlast, get_screenshot_direct]
            rw [hbuf2]
            simp [hsz]
          rw [hres]
          exact ⟨hlsz, fun _ => Or.inr rfl⟩
        · have hsz2 : (img.size == 0) = false := by simpa using hsz
          have hres : (get_screenshot st t ub (CaptureOutcome.decoded (some img))).1
              = img := by
            simp only [get_screenshot, hlast, get_screenshot_direct]
            rw [hbuf2]
            simp [hsz2]
          rw [hres]
          refine ⟨by simpa using hsz, fun hfail => ?_⟩
          rw [show isCaptureFailure (CaptureOutcome.decoded (some img))
              = (img.size == 0) from rfl, hsz2] at hfail
          exact absurd hfail (by simp)
      · have hres : (get_screenshot st t ub CaptureOutcome.raised).1 = blackImg := by
          simp only [get_screenshot, hlast, get_screenshot_direct]
          rw [hbuf2]
          simp [hb0]
        rw [hres]
        exact ⟨hblack, fun _ => Or.inl rfl⟩

/-- C10 witness: a fresh controller with a timed out capture: the invariant
on the empty buffer holds vacuously and the result is the black image. -/
theorem get_screenshot_total_fallback_witness :
    (∀ l, freshADB.last_screenshot = some l → l.size ≠ 0) ∧
    ((get_screenshot freshADB 5 true CaptureOutcome.timedOut).1.size ≠ 0 ∧
      (isCaptureFailure CaptureOutcome.timedOut = true →
        (get_screenshot freshADB 5 true CaptureOutcome.timedOut).1 = blackImg ∨
          freshADB.last_screenshot
            = some (get_screenshot freshADB 5 true CaptureOutcome.timedOut).1)) := by
  have hinv : ∀ l, freshADB.last_screenshot = some l → l.size ≠ 0 := by
    intro l h
    simp [freshADB] at h
  exact ⟨hinv, get_screenshot_total_fallback freshADB 5 true CaptureOutcome.timedOut hinv⟩

/-- C8: in every run, once any query of the stop flag observes it set, no
step action is executed afterwards and no step is reported successful
afterwards; and with a monotone flag (set once, never cleared during the
run), a run in whose trace the flag was observed set reports failure to the
completion callback. -/
theorem run_tutorial_cancellation_boundary (σ : Nat → Bool) (now : Nat)
    (e : TutorialEngine)
    (hmono : ∀ m n, m ≤ n → σ m = true → σ n = true) :
    (∀ pre suf, (run_tutorial σ now e).2.1 = pre ++ Event.checked true :: suf →
      (∀ ev ∈ suf, isAct ev = false) ∧
        ∀ sid, Event.stepComplete sid true ∉ suf) ∧
    (Event.checked true ∈ (run_tutorial σ now e).2.1 →
      (run_tutorial σ now e).2.2 = false) := by
  constructor
  · intro pre suf hsplit
    have hmem : Event.checked true ∈ (run_tutorial σ now e).2.1 := by
      rw [hsplit]
      exact List.mem_append_right _ (List.mem_cons_self _ _)
    rcases run_tutorial_stop_shape σ now e hmem with ⟨l1, l2, hshape, hnot, hclean⟩
    have hsuf : suf.all cleanEv = true :=
      clean_after_first pre (run_tutorial σ now e).2.1 l1 l2 suf hshape hnot
        hclean hsplit
    constructor
    · intro ev hev
      have hc := List.all_eq_true.mp hsuf ev hev
      cases ev <;> simp [cleanEv, isAct] at hc ⊢
    · intro sid hmemsc
      have hc := List.all_eq_true.mp hsuf _ hmemsc
      simp [cleanEv] at hc
  · intro hmem
    unfold run_tutorial at hmem ⊢
    by_cases hidx : 0 < startIndex e ∧ e.steps.length ≤ startIndex e
    · simp [hidx] at hmem
    · simp only [hidx, if_false] at hmem ⊢
      revert hmem
      rcases hrec : stepLoop σ now e (e.steps.drop (startIndex e)) (startIndex e) 0
        with ⟨e1, c1, evs⟩
      intro hmem
      have hσc1 : σ c1 = true := by
        by_cases hmemE : Event.checked true ∈ evs
        · have h2 := stepLoop_checked_val σ now e (e.steps.drop (startIndex e))
            (startIndex e) 0 true
          rw [hrec] at h2
          rcases h2 hmemE with ⟨k, hk1, hk2, hk3⟩
          have hk2b : k < c1 := hk2
          exact hmono k c1 (by omega) hk3
        · have h3 : true = σ c1 := by simpa [hmemE] using hmem
          exact h3.symm
      simp [hσc1]

/-- C8 witness: the flag becomes set after the first query; the run over
raisingEngine observes it and the conclusions hold at this instance. -/
theorem run_tutorial_cancellation_boundary_witness :
    (∀ m n, m ≤ n → sigmaLate m = true → sigmaLate n = true) ∧
    ((∀ pre suf, (run_tutorial sigmaLate 3 raisingEngine).2.1
          = pre ++ Event.checked true :: suf →
        (∀ ev ∈ suf, isAct ev = false) ∧
          ∀ sid, Event.stepComplete sid true ∉ suf) ∧
      (Event.checked true ∈ (run_tutorial sigmaLate 3 raisingEngine).2.1 →
        (run_tutorial sigmaLate 3 raisingEngine).2.2 = false)) := by
  have hmono : ∀ m n, m ≤ n → sigmaLate m = true → sigmaLate n = true := by
    intro m n hmn hm
    simp only [sigmaLate, decide_eq_true_eq] at hm ⊢
    omega
  exact ⟨hmono, run_tutorial_cancellation_boundary sigmaLate 3 raisingEngine hmono⟩

/-! C6 amended: every failure path of find_template returns the value none. -/

theorem detect_resolution_fields (p : ImageProcessor) (ss : Img) :
    ((detect_resolution p ss).2).templates = p.templates ∧
    ((detect_resolution p ss).2).template_thresholds = p.template_thresholds := by
  unfold detect_resolution
  by_cases h0 : ss.size == 0
  · simp [h0]
  · simp only [h0, Bool.false_eq_true, if_false]
    by_cases h1 : p.current_resolution = some (ss.w, ss.h)
    · simp [h1]
    · simp only [h1, if_false]
      rcases nearestResolution p.resolution_map ss.w ss.h with _ | entry <;> simp

theorem scaleStep_fold_below (mm : Img → Img → Option (Rat × Nat × Nat))
    (thr : Rat) (processed template : Img)
    (hmm : ∀ a b v x y, mm a b = some (v, x, y) → v < thr) :
    ∀ (svs : List Rat) (acc : MatchAcc),
      (acc.1 < thr ∨ (acc.1 = -1 ∧ acc.2 = none)) →
      ((svs.foldl (scaleStep mm processed template) acc).1 < thr ∨
        ((svs.foldl (scaleStep mm processed template) acc).1 = -1 ∧
          (svs.foldl (scaleStep mm processed template) acc).2 = none)) := by
  intro svs
  induction svs with
  | nil => intro acc h; simpa using h
  | cons s rest ih =>
      intro acc h
      rw [List.foldl_cons]
      apply ih
      unfold scaleStep
      by_cases hskip : (scale_image template s).h > processed.h ∨
          (scale_image template s).w > processed.w
      · simpa [hskip] using h
      · simp only [hskip, if_false]
        rcases hmmv : mm processed (scale_image template s) with _ | ⟨v, x, y⟩
        · exact h
        · by_cases hgt : v > acc.1
          · simp only [hgt, if_true]
            exact Or.inl (hmm _ _ _ _ _ hmmv)
          · simp only [hgt, if_false]
            exact h

theorem ptsFold_below (mm : Img → Img → Option (Rat × Nat × Nat))
    (tf : String → (Nat → Nat → Nat → Nat) → Nat → Nat → Nat → Nat)
    (screenshot template : Img) (svs : List Rat) (thr : Rat)
    (hmm : ∀ a b v x y, mm a b = some (v, x, y) → v < thr) :
    ∀ (pts : List String) (acc : MatchAcc),
      (acc.1 < thr ∨ (acc.1 = -1 ∧ acc.2 = none)) →
      ((pts.foldl (ptypeStep mm tf screenshot template svs) acc).1 < thr ∨
        ((pts.foldl (ptypeStep mm tf screenshot template svs) acc).1 = -1 ∧
          (pts.foldl (ptypeStep mm tf screenshot template svs) acc).2 = none)) := by
  intro pts
  induction pts with
  | nil => intro acc h; simpa using h
  | cons ptype rest ih =>
      intro acc h
      rw [List.foldl_cons]
      apply ih
      unfold ptypeStep
      exact scaleStep_fold_below mm thr (preprocess_image tf screenshot ptype)
        template hmm svs acc h

theorem searchBest_guard_none (mm : Img → Img → Option (Rat × Nat × Nat))
    (tf : String → (Nat → Nat → Nat → Nat) → Nat → Nat → Nat → Nat)
    (ss t : Img) (pts : List String) (svs : List Rat) (thr : Rat)
    (p2 : ImageProcessor)
    (hmm : ∀ a b v x y, mm a b = some (v, x, y) → v < thr) :
    (match searchBest mm tf ss t pts svs with
     | (best_val, best_match) =>
        if best_val ≥ thr then (best_match, p2) else (none, p2)).1 = none := by
  have hb := ptsFold_below mm tf ss t svs thr hmm pts ((-1 : Rat), none)
    (Or.inr ⟨rfl, rfl⟩)
  revert hb
  unfold searchBest
  rcases hsb : pts.foldl (ptypeStep mm tf ss t svs) ((-1 : Rat), none)
    with ⟨bv, bm⟩
  intro hb
  rcases hb with h | ⟨h1, h2⟩
  · have hlt : ¬ bv ≥ thr := not_le.mpr h
    simp [hlt]
  · have h1b : bv = -1 := h1
    have h2b : bm = none := h2
    subst h1b
    subst h2b
    by_cases hge : (-1 : Rat) ≥ thr
    · simp [hge]
    · simp [hge]

/-- C6 amended: find_template returns the same value none in each failure
case — an empty frame, a reference image larger than the frame, and no
candidate score reaching the threshold — so the caller cannot distinguish an
invalid input from an ordinary miss by the result. -/
theorem find_template_none_cases (mm : Img → Img → Option (Rat × Nat × Nat))
    (tf : String → (Nat → Nat → Nat → Nat) → Nat → Nat → Nat → Nat)
    (assets : String → Option Img)
    (p : ImageProcessor) (ss : Img) (name : String) (thr : Rat) :
    (ss.size = 0 →
      (find_template mm tf assets p ss name none none none).1 = none) ∧
    (∀ t, getKeyG p.templates name = some t → (t.h > ss.h ∨ t.w > ss.w) →
      (find_template mm tf assets p ss name none none none).1 = none) ∧
    ((∀ a b v x y, mm a b = some (v, x, y) → v < thr) →
      (find_template mm tf assets p ss name (some thr) none none).1 = none) := by
  refine ⟨?_, ?_, ?_⟩
  · intro h0
    unfold find_template
    simp [h0]
  · intro t ht hgt
    unfold find_template
    by_cases h0 : ss.size == 0
    · simp [h0]
    · simp only [h0, Bool.false_eq_true, if_false]
      rw [(detect_resolution_fields p ss).1, ht]
      simp [hgt]
  · intro hmm
    unfold find_template
    by_cases h0 : ss.size == 0
    · simp [h0]
    · simp only [h0, Bool.false_eq_true, if_false]
      rcases hload : getKeyG (detect_resolution p ss).2.templates name with _ | t
      · rcases hassets : assets name with _ | img
        · simp
        · by_cases hgt : img.h > ss.h ∨ img.w > ss.w
          · simp [hgt]
          · simp only [hgt, if_false]
            simpa using searchBest_guard_none mm tf ss img ["default"]
              [(detect_resolution p ss).2.scale_factor,
                (detect_resolution p ss).2.scale_factor * (9/10),
                (detect_resolution p ss).2.scale_factor * (11/10)] thr _ hmm
      · by_cases hgt : t.h > ss.h ∨ t.w > ss.w
        · simp [hgt]
        · simp only [hgt, if_false]
          simpa using searchBest_guard_none mm tf ss t ["default"]
            [(detect_resolution p ss).2.scale_factor,
              (detect_resolution p ss).2.scale_factor * (9/10),
              (detect_resolution p ss).2.scale_factor * (11/10)] thr _ hmm

/-- C6 amended, witness: concrete instantiation on the empty frame and on a
frame whose best candidate score stays below the threshold. -/
theorem find_template_none_cases_witness :
    emptyImg.size = 0 ∧
    (find_template mmZero tfId noAssets procBtn emptyImg "btn" none none none).1
      = none ∧
    (∀ a b v x y, mmZero a b = some (v, x, y) → v < thr45) ∧
    (find_template mmZero tfId noAssets procBtn frame100 "btn" (some thr45)
        none none).1 = none := by
  have h0 : emptyImg.size = 0 := rfl
  have hm : ∀ a b v x y, mmZero a b = some (v, x, y) → v < thr45 := by
    intro a b v x y h
    simp only [mmZero, Option.some.injEq, Prod.mk.injEq] at h
    rw [← h.1]
    decide
  exact ⟨h0,
    (find_template_none_cases mmZero tfId noAssets procBtn emptyImg "btn" thr45).1 h0,
    hm,
    (find_template_none_cases mmZero tfId noAssets procBtn frame100 "btn"
      thr45).2.2 hm⟩

/-! C7 amended: the polling loop stops at the timeout or the attempts bound,
whichever comes first, and a raised attempt behaves like a missed one. -/

theorem waitLoop_none_exit (elapsed : Nat → Rat) (res : Nat → AttemptOutcome)
    (timeout : Rat) (maxA : Nat) :
    ∀ fuel n, n + fuel = maxA + 1 → n ≤ maxA →
      (waitLoop elapsed res timeout maxA fuel n).1 = none →
      timeout ≤ elapsed (waitLoop elapsed res timeout maxA fuel n).2 ∨
        (waitLoop elapsed res timeout maxA fuel n).2 = maxA := by
  intro fuel
  induction fuel with
  | zero =>
      intro n h1 h2 _
      exact absurd h1 (by omega)
  | succ fuel ih =>
      intro n h1 h2 hnone
      unfold waitLoop at hnone ⊢
      by_cases hcond : elapsed n < timeout ∧ n < maxA
      · rw [if_pos hcond] at hnone ⊢
        revert hnone
        rcases res n with pt | _ | _ <;> intro hnone
        · simp at hnone
        · exact ih (n + 1) (by omega) (by omega) hnone
        · exact ih (n + 1) (by omega) (by omega) hnone
      · rw [if_neg hcond] at hnone ⊢
        rcases not_and_or.mp hcond with h | h
        · exact Or.inl (le_of_not_lt h)
        · exact Or.inr (by omega)

theorem waitLoop_view_eq (elapsed : Nat → Rat) (res res2 : Nat → AttemptOutcome)
    (timeout : Rat) (maxA : Nat)
    (hview : ∀ n, outcomeView (res n) = outcomeView (res2 n)) :
    ∀ fuel n, waitLoop elapsed res timeout maxA fuel n
      = waitLoop elapsed res2 timeout maxA fuel n := by
  intro fuel
  induction fuel with
  | zero => intro n; rfl
  | succ fuel ih =>
      intro n
      unfold waitLoop
      by_cases hcond : elapsed n < timeout ∧ n < maxA
      · rw [if_pos hcond, if_pos hcond]
        have hv := hview n
        rcases h1 : res n with pt | _ | _ <;> rcases h2 : res2 n with pt2 | _ | _ <;>
            simp only [h1, h2, outcomeView, Option.some.injEq] at hv <;>
            first
              | (rw [hv])
              | (exact ih (n + 1))
              | simp at hv
      · rw [if_neg hcond, if_neg hcond]

theorem waitLoop_some (elapsed : Nat → Rat) (res : Nat → AttemptOutcome)
    (timeout : Rat) (maxA : Nat) :
    ∀ fuel n pt, (waitLoop elapsed res timeout maxA fuel n).1 = some pt →
      res (waitLoop elapsed res timeout maxA fuel n).2 = AttemptOutcome.found pt ∧
        elapsed (waitLoop elapsed res timeout maxA fuel n).2 < timeout ∧
        (waitLoop elapsed res timeout maxA fuel n).2 < maxA := by
  intro fuel
  induction fuel with
  | zero =>
      intro n pt h
      simp [waitLoop] at h
  | succ fuel ih =>
      intro n pt h
      unfold waitLoop at h ⊢
      by_cases hcond : elapsed n < timeout ∧ n < maxA
      · rw [if_pos hcond] at h ⊢
        revert h
        rcases hres : res n with pt2 | _ | _ <;> intro h
        · have hpt : pt2 = pt := by simpa using h
          subst hpt
          exact ⟨hres, hcond.1, hcond.2⟩
        · exact ih (n + 1) pt h
        · exact ih (n + 1) pt h
      · rw [if_neg hcond] at h
        simp at h

/-- C7 amended: wait_for_template returns none exactly when the loop stops,
at the timeout or at the attempts bound 20, whichever comes first; an
attempt in which the capture or the search raises is treated exactly like a
missed attempt, so a single failure never aborts the wait; and a returned
point comes from a found attempt made before both bounds. -/
theorem wait_for_template_exit_conditions (elapsed : Nat → Rat)
    (res res2 : Nat → AttemptOutcome) (timeout : Rat) :
    ((wait_for_template elapsed res timeout).1 = none →
      timeout ≤ elapsed (wait_for_template elapsed res timeout).2 ∨
        (wait_for_template elapsed res timeout).2 = 20) ∧
    ((∀ n, outcomeView (res n) = outcomeView (res2 n)) →
      wait_for_template elapsed res timeout
        = wait_for_template elapsed res2 timeout) ∧
    (∀ pt, (wait_for_template elapsed res timeout).1 = some pt →
      res (wait_for_template elapsed res timeout).2 = AttemptOutcome.found pt ∧
        elapsed (wait_for_template elapsed res timeout).2 < timeout ∧
        (wait_for_template elapsed res timeout).2 < 20) := by
  refine ⟨?_, ?_, ?_⟩
  · exact waitLoop_none_exit elapsed res timeout 20 21 0 (by omega) (by omega)
  · intro hview
    exact waitLoop_view_eq elapsed res res2 timeout 20 hview 21 0
  · intro pt h
    exact waitLoop_some elapsed res timeout 20 21 0 pt h

/-- C7 amended, witness: concrete instantiation in which the attempts bound
ends the wait and in which raised attempts behave like missed ones. -/
theorem wait_for_template_exit_conditions_witness :
    (wait_for_template secClock neverFound 100).1 = none ∧
    (100 ≤ secClock (wait_for_template secClock neverFound 100).2 ∨
      (wait_for_template secClock neverFound 100).2 = 20) ∧
    (∀ n, outcomeView (neverFound n) = outcomeView (alwaysRaised n)) ∧
    wait_for_template secClock neverFound 100
      = wait_for_template secClock alwaysRaised 100 := by
  have hnone : (wait_for_template secClock neverFound 100).1 = none := by decide
  have hview : ∀ n, outcomeView (neverFound n) = outcomeView (alwaysRaised n) :=
    fun _ => rfl
  exact ⟨hnone,
    (wait_for_template_exit_conditions secClock neverFound alwaysRaised 100).1 hnone,
    hview,
    (wait_for_template_exit_conditions secClock neverFound alwaysRaised 100).2.1 hview⟩

end SoCBot
